import Mathlib

set_option maxHeartbeats 1000000

namespace MicroXAgentLoop

/-- JSON-like structured values, modelling the `unknown`-typed structured
inputs and schema objects that flow between the agent and its tools
(TypeScript `Record<string, unknown>` values). -/
inductive Json where
  | null
  | bool (b : Bool)
  | num (n : Int)
  | str (s : String)
  | arr (elems : List Json)
  | obj (fields : List (String × Json))

/-- A JavaScript object of string keys, as an ordered field list. -/
abbrev JRecord := List (String × Json)

/-- First-match lookup of a key in a JavaScript object (JS objects never
hold a key twice, so first match is the key's value). -/
def recLookup (fields : JRecord) (key : String) : Option Json :=
  (fields.find? (fun p => p.1 == key)).map (fun p => p.2)

/-- One step of building a JavaScript object literal: assigning to a key
that is already present overwrites its value in place, a fresh key is
appended at the end. -/
def objInsert (fields : JRecord) (key : String) (v : Json) : JRecord :=
  if fields.any (fun p => p.1 == key) then
    fields.map (fun p => if p.1 == key then (key, v) else p)
  else
    fields ++ [(key, v)]

/-- JavaScript object-spread semantics: the fields of `ext` are assigned
one by one, in order, into an object that starts as `base`. -/
def objSpread (base ext : JRecord) : JRecord :=
  ext.foldl (fun acc p => objInsert acc p.1 p.2) base

/-- src/types.ts, interface Tool.  `execute` models the async executor:
`Except.ok s` is a promise resolving with text `s`, `Except.error m` is a
rejected promise (an uncaught executor exception) whose Error has
message `m`. -/
structure Tool where
  name : String
  description : String
  inputSchema : JRecord
  execute : JRecord → Except String String

/-- src/types.ts, interface AgentConfig. -/
structure AgentConfig where
  model : String
  maxTokens : Nat
  apiKey : String
  tools : List Tool
  systemPrompt : String

/-- The provider-side tool schema (Anthropic.Messages.Tool): name,
description and an `input_schema` object. -/
structure AnthropicTool where
  name : String
  description : String
  input_schema : JRecord

/-- src/llm.ts, body of the `toAnthropicTools` map: each tool becomes
an object whose `input_schema` is the literal with a `type: "object"`
field spread-extended by the tool's own `inputSchema`. -/
def toAnthropicTool (t : Tool) : AnthropicTool :=
  { name := t.name
    description := t.description
    input_schema := objSpread [("type", Json.str "object")] t.inputSchema }

/-- src/llm.ts, `toAnthropicTools`: a map over the tool list. -/
def toAnthropicTools (tools : List Tool) : List AnthropicTool :=
  tools.map toAnthropicTool

/-- One content block of a provider response: a text segment or a
tool-call segment (Anthropic TextBlock / ToolUseBlock). -/
inductive ContentBlock where
  | text (text : String)
  | toolUse (id : String) (name : String) (input : JRecord)

/-- A tool-call segment after the type-guard filter in Agent.run
(Anthropic.Messages.ToolUseBlock). -/
structure ToolUseBlock where
  id : String
  name : String
  input : JRecord

/-- Anthropic.Messages.ToolResultBlockParam as built by Agent.run.  The
source leaves `is_error` absent on success, which reads as false. -/
structure ToolResultBlockParam where
  tool_use_id : String
  content : String
  is_error : Bool

/-- The content of one conversation turn: a plain user string, an
assistant block list, or a tool-result list (the three content shapes
Agent.run pushes onto `this.messages`). -/
inductive MessageContent where
  | ofText (s : String)
  | ofBlocks (blocks : List ContentBlock)
  | ofToolResults (results : List ToolResultBlockParam)

/-- One entry of `this.messages` (Anthropic.Messages.MessageParam). -/
structure Message where
  role : String
  content : MessageContent

/-- The provider response returned by `chat` (Anthropic.Messages.Message,
restricted to the fields Agent.run reads). -/
structure MessageResponse where
  content : List ContentBlock
  stop_reason : Option String

/-- src/agent.ts, Agent constructor: `new Map(config.tools.map(t =>
[t.name, t]))` builds the entry list in order; duplicate keys are
resolved by Map insertion (see `toolMapGet`). -/
def toolMapOf (tools : List Tool) : List (String × Tool) :=
  tools.map (fun t => (t.name, t))

/-- JS `Map.get`: when the constructor list held a key twice, the later
insertion overwrote the earlier one, so lookup finds the last matching
entry — hence the find over the reversed entry list. -/
def toolMapGet (entries : List (String × Tool)) (name : String) : Option Tool :=
  (entries.reverse.find? (fun p => p.1 == name)).map (fun p => p.2)

/-- The Agent's fields after construction (the network client handle is
omitted; it carries no protocol state). -/
structure Agent where
  model : String
  maxTokens : Nat
  systemPrompt : String
  messages : List Message
  toolMap : List (String × Tool)
  anthropicTools : List AnthropicTool

/-- src/agent.ts, Agent constructor. -/
def Agent.create (config : AgentConfig) : Agent :=
  { model := config.model
    maxTokens := config.maxTokens
    systemPrompt := config.systemPrompt
    messages := []
    toolMap := toolMapOf config.tools
    anthropicTools := toAnthropicTools config.tools }

/-- Agent.run: `response.content.filter(block => block.type ===
"tool_use")` — the tool-call segments of a response, in order. -/
def toolUseBlocksOf (content : List ContentBlock) : List ToolUseBlock :=
  content.filterMap (fun b =>
    match b with
    | ContentBlock.toolUse id name input => some { id := id, name := name, input := input }
    | ContentBlock.text _ => none)

/-- Agent.run: `response.content.filter(block => block.type ===
"text").map(block => block.text)` — the text segments, in order. -/
def textBlocksOf (content : List ContentBlock) : List String :=
  content.filterMap (fun b =>
    match b with
    | ContentBlock.text t => some t
    | ContentBlock.toolUse _ _ _ => none)

/-- Agent.run, one iteration of the dispatch for-loop body (the lookup,
the unknown-tool branch, and the try/catch around `tool.execute`).  The
second component records the executor invocations this step performed
(name and structured input of each awaited `tool.execute` call). -/
def runToolUse (toolMap : List (String × Tool)) (block : ToolUseBlock) :
    ToolResultBlockParam × List (String × JRecord) :=
  match toolMapGet toolMap block.name with
  | none =>
      ({ tool_use_id := block.id
         content := "Error: unknown tool \"" ++ block.name ++ "\""
         is_error := true }, [])
  | some tool =>
      match tool.execute block.input with
      | Except.ok result =>
          ({ tool_use_id := block.id, content := result, is_error := false },
           [(block.name, block.input)])
      | Except.error msg =>
          ({ tool_use_id := block.id
             content := "Error executing tool \"" ++ block.name ++ "\": " ++ msg
             is_error := true }, [(block.name, block.input)])

/-- Agent.run, the dispatch for-loop over `toolUseBlocks`: strictly
sequential, one `toolResults.push` per block; invocation traces are
concatenated in order. -/
def dispatchBlocks (toolMap : List (String × Tool)) :
    List ToolUseBlock → List ToolResultBlockParam × List (String × JRecord)
  | [] => ([], [])
  | b :: rest =>
      let r := runToolUse toolMap b
      let rs := dispatchBlocks toolMap rest
      (r.1 :: rs.1, r.2 ++ rs.2)

/-- Outcome of running the loop against a finite oracle of provider-call
results.  `answer` is the normal return; `providerError` is an uncaught
exception from `chat` propagating out of Agent.run, carrying the
conversation state at the moment of the throw; `pending` means the
oracle was exhausted while the loop was about to issue another provider
call. -/
inductive RunOutcome where
  | answer (text : String) (messages : List Message)
  | providerError (err : String) (messages : List Message)
  | pending (messages : List Message)

/-- src/agent.ts (Agent.run), the `while (true)` loop.  Each oracle entry
is the result of one `chat` call: `Except.ok` a response, `Except.error`
a rejected provider call.  The body mirrors the source line for line:
push the assistant turn, filter the tool-use blocks, return the joined
text blocks when there are none, otherwise dispatch and push the single
tool-result turn, then loop. -/
def runLoop (toolMap : List (String × Tool)) (messages : List Message) :
    List (Except String MessageResponse) → RunOutcome
  | [] => RunOutcome.pending messages
  | Except.error e :: _ => RunOutcome.providerError e messages
  | Except.ok response :: rest =>
      let messages1 := messages ++
        [{ role := "assistant", content := MessageContent.ofBlocks response.content }]
      let toolUseBlocks := toolUseBlocksOf response.content
      if toolUseBlocks.length = 0 then
        RunOutcome.answer (String.intercalate "\n" (textBlocksOf response.content)) messages1
      else
        runLoop toolMap
          (messages1 ++
            [{ role := "user"
               content := MessageContent.ofToolResults (dispatchBlocks toolMap toolUseBlocks).1 }])
          rest

/-- Agent.run entry: push the user turn, then enter the loop. -/
def Agent.run (a : Agent) (userMessage : String)
    (provider : List (Except String MessageResponse)) : RunOutcome :=
  runLoop a.toolMap
    (a.messages ++ [{ role := "user", content := MessageContent.ofText userMessage }])
    provider

/-- Each dispatched tool result echoes the call identifier of the block
that requested it, in every branch of the dispatch body. -/
lemma runToolUse_id (toolMap : List (String × Tool)) (b : ToolUseBlock) :
    ((runToolUse toolMap b).1).tool_use_id = b.id := by
  cases hget : toolMapGet toolMap b.name with
  | none => simp [runToolUse, hget]
  | some tool =>
    cases hex : tool.execute b.input with
    | ok r => simp [runToolUse, hget, hex]
    | error m => simp [runToolUse, hget, hex]

/-- The dispatch loop produces the requesting call identifiers, in
order. -/
lemma dispatchBlocks_map_id (toolMap : List (String × Tool)) (bs : List ToolUseBlock) :
    ((dispatchBlocks toolMap bs).1).map ToolResultBlockParam.tool_use_id
      = bs.map ToolUseBlock.id := by
  induction bs with
  | nil => rfl
  | cons b rest ih => simp [dispatchBlocks, runToolUse_id, ih]

/-- The dispatch loop produces one result per block. -/
lemma dispatchBlocks_length (toolMap : List (String × Tool)) (bs : List ToolUseBlock) :
    ((dispatchBlocks toolMap bs).1).length = bs.length := by
  have h := congrArg List.length (dispatchBlocks_map_id toolMap bs)
  simpa using h

/-- Loop step when the response holds no tool-call segment: return the
joined text blocks, with only the assistant turn appended. -/
lemma runLoop_ok_no_tools (toolMap : List (String × Tool)) (msgs : List Message)
    (resp : MessageResponse) (rest : List (Except String MessageResponse))
    (h : toolUseBlocksOf resp.content = []) :
    runLoop toolMap msgs (Except.ok resp :: rest) =
      RunOutcome.answer (String.intercalate "\n" (textBlocksOf resp.content))
        (msgs ++ [{ role := "assistant", content := MessageContent.ofBlocks resp.content }]) := by
  simp [runLoop, h]

/-- Loop step when the response holds tool-call segments: append the
assistant turn and the aggregated tool-result turn, then loop on the
remaining provider calls. -/
lemma runLoop_ok_with_tools (toolMap : List (String × Tool)) (msgs : List Message)
    (resp : MessageResponse) (rest : List (Except String MessageResponse))
    (h : toolUseBlocksOf resp.content ≠ []) :
    runLoop toolMap msgs (Except.ok resp :: rest) =
      runLoop toolMap
        (msgs ++
          [{ role := "assistant", content := MessageContent.ofBlocks resp.content },
           { role := "user"
             content := MessageContent.ofToolResults
               (dispatchBlocks toolMap (toolUseBlocksOf resp.content)).1 }])
        rest := by
  have hlen : ¬ (toolUseBlocksOf resp.content).length = 0 := by
    simpa [List.length_eq_zero] using h
  simp [runLoop, hlen]

/-- C1: for every provider response, the loop terminates the current
user-message handling and returns an answer exactly when the response
contains zero tool-call segments; otherwise it dispatches the tool-call
segments, appends the tool-result turn, and issues the next provider
call. -/
theorem loop_returns_iff_no_tool_call_segments (toolMap : List (String × Tool))
    (msgs : List Message) (resp : MessageResponse)
    (rest : List (Except String MessageResponse)) :
    (toolUseBlocksOf resp.content = [] ∧
      runLoop toolMap msgs (Except.ok resp :: rest) =
        RunOutcome.answer (String.intercalate "\n" (textBlocksOf resp.content))
          (msgs ++ [{ role := "assistant", content := MessageContent.ofBlocks resp.content }]))
    ∨ (toolUseBlocksOf resp.content ≠ [] ∧
      runLoop toolMap msgs (Except.ok resp :: rest) =
        runLoop toolMap
          (msgs ++
            [{ role := "assistant", content := MessageContent.ofBlocks resp.content },
             { role := "user"
               content := MessageContent.ofToolResults
                 (dispatchBlocks toolMap (toolUseBlocksOf resp.content)).1 }])
          rest) := by
  by_cases h : toolUseBlocksOf resp.content = []
  · exact Or.inl ⟨h, runLoop_ok_no_tools toolMap msgs resp rest h⟩
  · exact Or.inr ⟨h, runLoop_ok_with_tools toolMap msgs resp rest h⟩

/-- C3: the tool-result turn appended in a round carries exactly one
entry per tool-call segment of the assistant turn, with matching call
identifiers, in the same order as the segments appeared. -/
theorem tool_results_match_tool_calls_in_order (toolMap : List (String × Tool))
    (msgs : List Message) (resp : MessageResponse)
    (rest : List (Except String MessageResponse)) :
    ((dispatchBlocks toolMap (toolUseBlocksOf resp.content)).1).map
        ToolResultBlockParam.tool_use_id
      = (toolUseBlocksOf resp.content).map ToolUseBlock.id
    ∧ ((dispatchBlocks toolMap (toolUseBlocksOf resp.content)).1).length
      = (toolUseBlocksOf resp.content).length
    ∧ (toolUseBlocksOf resp.content = [] ∨
        runLoop toolMap msgs (Except.ok resp :: rest) =
          runLoop toolMap
            (msgs ++
              [{ role := "assistant", content := MessageContent.ofBlocks resp.content },
               { role := "user"
                 content := MessageContent.ofToolResults
                   (dispatchBlocks toolMap (toolUseBlocksOf resp.content)).1 }])
            rest) := by
  refine ⟨dispatchBlocks_map_id _ _, dispatchBlocks_length _ _, ?_⟩
  by_cases h : toolUseBlocksOf resp.content = []
  · exact Or.inl h
  · exact Or.inr (runLoop_ok_with_tools toolMap msgs resp rest h)

/-- C4: a tool-call segment naming a tool absent from the registry
yields an error tool-result with the exact unknown-tool text, and no
executor is invoked for that segment (empty invocation trace). -/
theorem unknown_tool_error_no_executor (toolMap : List (String × Tool))
    (b : ToolUseBlock) (h : toolMapGet toolMap b.name = none) :
    runToolUse toolMap b =
      ({ tool_use_id := b.id
         content := "Error: unknown tool \"" ++ b.name ++ "\""
         is_error := true }, []) := by
  simp [runToolUse, h]

/-- Witness for C4 at a concrete unregistered name. -/
theorem unknown_tool_error_no_executor_witness :
    runToolUse (toolMapOf []) { id := "call-1", name := "read_file", input := [] } =
      ({ tool_use_id := "call-1"
         content := "Error: unknown tool \"read_file\""
         is_error := true }, []) :=
  unknown_tool_error_no_executor (toolMapOf [])
    { id := "call-1", name := "read_file", input := [] } rfl

/-- C5: a failed provider call propagates out of the loop uncaught, and
the conversation state reported at the throw is exactly the state from
immediately before the failed call; for a failure on the first call of
Agent.run, that state is the prior transcript plus only the new user
turn. -/
theorem provider_failure_propagates_state_unchanged
    (toolMap : List (String × Tool)) (msgs : List Message) (e : String)
    (rest : List (Except String MessageResponse)) :
    runLoop toolMap msgs (Except.error e :: rest) = RunOutcome.providerError e msgs
    ∧ ∀ (a : Agent) (userMessage : String),
        Agent.run a userMessage (Except.error e :: rest) =
          RunOutcome.providerError e
            (a.messages ++ [{ role := "user", content := MessageContent.ofText userMessage }]) := by
  exact ⟨rfl, fun a u => rfl⟩

/-- C6: when the loop terminates, the answer is the text segments of the
terminating assistant turn, in order, joined by a single newline; a
response with no segments at all yields the empty string. -/
theorem final_answer_is_joined_text (toolMap : List (String × Tool))
    (msgs : List Message) (resp : MessageResponse)
    (rest : List (Except String MessageResponse))
    (h : toolUseBlocksOf resp.content = []) :
    runLoop toolMap msgs (Except.ok resp :: rest) =
      RunOutcome.answer (String.intercalate "\n" (textBlocksOf resp.content))
        (msgs ++ [{ role := "assistant", content := MessageContent.ofBlocks resp.content }])
    ∧ (resp.content = [] →
        runLoop toolMap msgs (Except.ok resp :: rest) =
          RunOutcome.answer ""
            (msgs ++ [{ role := "assistant", content := MessageContent.ofBlocks resp.content }])) := by
  refine ⟨runLoop_ok_no_tools toolMap msgs resp rest h, fun hc => ?_⟩
  have := runLoop_ok_no_tools toolMap msgs resp rest h
  rw [this, hc]
  rfl

/-- A concrete two-text-segment terminating response. -/
def respTexts : MessageResponse :=
  { content := [ContentBlock.text "a", ContentBlock.text "b"]
    stop_reason := some "end_turn" }

/-- Witness for C6: two text segments join with one newline. -/
theorem final_answer_is_joined_text_witness :
    runLoop [] [] [Except.ok respTexts] =
      RunOutcome.answer "a\nb"
        [{ role := "assistant", content := MessageContent.ofBlocks respTexts.content }] := by
  have h := (final_answer_is_joined_text [] [] respTexts [] rfl).1
  simpa [respTexts, textBlocksOf] using h

/-- C2: when a registered tool's executor raises, the dispatch catches
it and produces an error tool-result with the exact executing-error
text for that callId; and with tool-call segments present, the loop
still appends the tool-result turn and moves on to the next provider
call — a single tool failure never aborts Agent.run. -/
theorem executor_failure_is_contained (toolMap : List (String × Tool)) (tool : Tool)
    (b : ToolUseBlock) (msg : String)
    (hget : toolMapGet toolMap b.name = some tool)
    (hexec : tool.execute b.input = Except.error msg) :
    (runToolUse toolMap b).1 =
      { tool_use_id := b.id
        content := "Error executing tool \"" ++ b.name ++ "\": " ++ msg
        is_error := true }
    ∧ ∀ (msgs : List Message) (rest : List (Except String MessageResponse))
        (resp : MessageResponse), toolUseBlocksOf resp.content ≠ [] →
        runLoop toolMap msgs (Except.ok resp :: rest) =
          runLoop toolMap
            (msgs ++
              [{ role := "assistant", content := MessageContent.ofBlocks resp.content },
               { role := "user"
                 content := MessageContent.ofToolResults
                   (dispatchBlocks toolMap (toolUseBlocksOf resp.content)).1 }])
            rest := by
  refine ⟨by simp [runToolUse, hget, hexec], ?_⟩
  intro msgs rest resp h
  exact runLoop_ok_with_tools toolMap msgs resp rest h

/-- A concrete tool whose executor always raises. -/
def failTool : Tool :=
  { name := "boom"
    description := "always fails"
    inputSchema := [("type", Json.str "object")]
    execute := fun _ => Except.error "kaboom" }

/-- A concrete response requesting the failing tool once. -/
def respFail : MessageResponse :=
  { content := [ContentBlock.toolUse "call-9" "boom" []]
    stop_reason := some "tool_use" }

/-- Witness for C2: the failing executor's call is answered with the
error text and the loop proceeds to the next provider call. -/
theorem executor_failure_is_contained_witness :
    (runToolUse (toolMapOf [failTool]) { id := "call-9", name := "boom", input := [] }).1 =
      { tool_use_id := "call-9"
        content := "Error executing tool \"boom\": kaboom"
        is_error := true }
    ∧ runLoop (toolMapOf [failTool]) [] [Except.ok respFail] =
        runLoop (toolMapOf [failTool])
          ([] ++
            [{ role := "assistant", content := MessageContent.ofBlocks respFail.content },
             { role := "user"
               content := MessageContent.ofToolResults
                 (dispatchBlocks (toolMapOf [failTool]) (toolUseBlocksOf respFail.content)).1 }])
          [] := by
  have h := executor_failure_is_contained (toolMapOf [failTool]) failTool
    { id := "call-9", name := "boom", input := [] } "kaboom" rfl rfl
  exact ⟨h.1, h.2 [] [] respFail (by simp [respFail, toolUseBlocksOf])⟩

/-- Lookup in the constructed map equals a last-match search over the
original tool list. -/
lemma toolMapGet_toolMapOf (tools : List Tool) (n : String) :
    toolMapGet (toolMapOf tools) n = tools.reverse.find? (fun t => t.name == n) := by
  have hrev : (toolMapOf tools).reverse = toolMapOf tools.reverse := by
    simp [toolMapOf]
  rw [toolMapGet, hrev, toolMapOf, List.find?_map]
  cases h : tools.reverse.find? (fun t => t.name == n) with
  | none =>
      have h2 : tools.reverse.find? ((fun p : String × Tool => p.1 == n) ∘ fun t => (t.name, t))
          = none := by
        simpa [Function.comp] using h
      simp [h2]
  | some t =>
      have h2 : tools.reverse.find? ((fun p : String × Tool => p.1 == n) ∘ fun t => (t.name, t))
          = some t := by
        simpa [Function.comp] using h
      simp [h2]

/-- A first tool registered under the duplicate name. -/
def dupToolA : Tool :=
  { name := "dup"
    description := "first tool with this name"
    inputSchema := [("type", Json.str "object")]
    execute := fun _ => Except.ok "from A" }

/-- A second tool registered under the same name. -/
def dupToolB : Tool :=
  { name := "dup"
    description := "second tool with this name"
    inputSchema := [("type", Json.str "object")]
    execute := fun _ => Except.ok "from B" }

/-- A configuration whose tool list holds two tools named "dup". -/
def dupConfig : AgentConfig :=
  { model := "m"
    maxTokens := 1
    apiKey := "k"
    tools := [dupToolA, dupToolB]
    systemPrompt := "s" }

/-- Counterexample to C7: constructing an Agent from a duplicate-name
configuration is not rejected — construction succeeds, both entries are
inserted, and dispatch silently resolves the name to the later tool. -/
theorem duplicate_tool_names_not_rejected :
    (Agent.create dupConfig).toolMap = [("dup", dupToolA), ("dup", dupToolB)]
    ∧ toolMapGet (Agent.create dupConfig).toolMap "dup" = some dupToolB
    ∧ (runToolUse (Agent.create dupConfig).toolMap
        { id := "call-2", name := "dup", input := [] }).1.content = "from B" := by
  refine ⟨rfl, rfl, rfl⟩

/-- C7 amended: construction from a duplicate-name tool list succeeds,
and lookup resolves the name to the last tool in the list bearing it
(JS Map insertion semantics), regardless of earlier duplicates. -/
theorem duplicate_tool_names_resolve_to_last (model apiKey sysPrompt : String)
    (maxTokens : Nat) (xs ys : List Tool) (t : Tool)
    (h : ∀ u ∈ ys, u.name ≠ t.name) :
    toolMapGet (Agent.create
      { model := model, maxTokens := maxTokens, apiKey := apiKey
        tools := xs ++ t :: ys, systemPrompt := sysPrompt }).toolMap t.name = some t := by
  have hcreate : (Agent.create
      { model := model, maxTokens := maxTokens, apiKey := apiKey
        tools := xs ++ t :: ys, systemPrompt := sysPrompt }).toolMap
      = toolMapOf (xs ++ t :: ys) := rfl
  rw [hcreate, toolMapGet_toolMapOf, List.reverse_append, List.reverse_cons,
    List.append_assoc, List.find?_append]
  have hys : ys.reverse.find? (fun u => u.name == t.name) = none := by
    rw [List.find?_eq_none]
    intro u hu
    simpa using h u (List.mem_reverse.mp hu)
  simp [hys]

/-- Witness for C7 amended: with "dup" registered twice, lookup returns
the second registration. -/
theorem duplicate_tool_names_resolve_to_last_witness :
    toolMapGet (Agent.create dupConfig).toolMap "dup" = some dupToolB := by
  have h := duplicate_tool_names_resolve_to_last "m" "k" "s" 1 [dupToolA] [] dupToolB
    (fun u hu => absurd hu (List.not_mem_nil u))
  simpa [dupConfig, dupToolB] using h

/-- Updating every matching field leaves the first match as the fresh
pair, provided some field matches. -/
lemma find_map_upd (fields : JRecord) (k : String) (v : Json)
    (h : fields.any (fun p => p.1 == k) = true) :
    (fields.map (fun p => if p.1 == k then (k, v) else p)).find? (fun p => p.1 == k)
      = some (k, v) := by
  induction fields with
  | nil => simp at h
  | cons q rest ih =>
    rw [List.map_cons]
    by_cases hq : (q.1 == k) = true
    · have hhead : (if q.1 == k then (k, v) else q) = (k, v) := if_pos hq
      rw [hhead]
      exact List.find?_cons_of_pos _ (by simp)
    · have hq' : (q.1 == k) = false := by simpa using hq
      have hhead : (if q.1 == k then (k, v) else q) = q := by
        rw [if_neg hq]
      rw [hhead, List.find?_cons_of_neg _ (by simp [hq'])]
      apply ih
      rw [List.any_cons] at h
      simpa [hq'] using h

/-- Updating fields keyed `k` does not disturb a search for a different
key. -/
lemma find_map_upd_ne (fields : JRecord) (k : String) (v : Json) (k' : String)
    (hne : k' ≠ k) :
    (fields.map (fun p => if p.1 == k then (k, v) else p)).find? (fun p => p.1 == k')
      = fields.find? (fun p => p.1 == k') := by
  induction fields with
  | nil => rfl
  | cons q rest ih =>
    rw [List.map_cons]
    by_cases hq : (q.1 == k) = true
    · have hqk : q.1 = k := eq_of_beq hq
      have hhead : (if q.1 == k then (k, v) else q) = (k, v) := if_pos hq
      have h1 : ¬ (((k, v) : String × Json).1 == k') = true := by
        intro hkk
        exact hne (eq_of_beq hkk).symm
      have h2 : ¬ (q.1 == k') = true := by
        intro hkk
        have hq1 : q.1 = k' := eq_of_beq hkk
        rw [hqk] at hq1
        exact hne hq1.symm
      rw [hhead, List.find?_cons_of_neg _ (by exact h1),
        List.find?_cons_of_neg _ (by exact h2)]
      exact ih
    · have hhead : (if q.1 == k then (k, v) else q) = q := by rw [if_neg hq]
      rw [hhead]
      by_cases hk2 : (q.1 == k') = true
      · rw [List.find?_cons_of_pos _ (by exact hk2),
          List.find?_cons_of_pos _ (by exact hk2)]
      · rw [List.find?_cons_of_neg _ (by exact hk2),
          List.find?_cons_of_neg _ (by exact hk2), ih]

/-- Object assignment makes the assigned key readable with the assigned
value. -/
lemma recLookup_objInsert_self (fields : JRecord) (k : String) (v : Json) :
    recLookup (objInsert fields k v) k = some v := by
  cases h : fields.any (fun p => p.1 == k) with
  | true =>
    have heq : objInsert fields k v
        = fields.map (fun p => if p.1 == k then (k, v) else p) := by
      unfold objInsert
      rw [if_pos h]
    unfold recLookup
    rw [heq, find_map_upd fields k v h]
    rfl
  | false =>
    have heq : objInsert fields k v = fields ++ [(k, v)] := by
      unfold objInsert
      rw [if_neg (by simp [h])]
    have hnone : fields.find? (fun p => p.1 == k) = none := by
      rw [List.find?_eq_none]
      intro p hp
      exact (List.any_eq_false.mp h) p hp
    unfold recLookup
    rw [heq, List.find?_append, hnone]
    simp

/-- Object assignment to one key does not change reads of other keys. -/
lemma recLookup_objInsert_ne (fields : JRecord) (k : String) (v : Json)
    (k' : String) (hne : k' ≠ k) :
    recLookup (objInsert fields k v) k' = recLookup fields k' := by
  cases h : fields.any (fun p => p.1 == k) with
  | true =>
    have heq : objInsert fields k v
        = fields.map (fun p => if p.1 == k then (k, v) else p) := by
      unfold objInsert
      rw [if_pos h]
    unfold recLookup
    rw [heq, find_map_upd_ne fields k v k' hne]
  | false =>
    have heq : objInsert fields k v = fields ++ [(k, v)] := by
      unfold objInsert
      rw [if_neg (by simp [h])]
    have h2 : List.find? (fun p => p.1 == k') [(k, v)] = none := by
      rw [List.find?_eq_none]
      intro p hp
      have hpkv : p = (k, v) := by simpa using hp
      subst hpkv
      intro hkk
      exact hne (eq_of_beq hkk).symm
    unfold recLookup
    rw [heq, List.find?_append, h2]
    simp

/-- Spreading fields none of which carry key `k` leaves reads of `k` at
their base value. -/
lemma recLookup_objSpread_not_mem : ∀ (ext base : JRecord) (k : String),
    (∀ p ∈ ext, p.1 ≠ k) →
    recLookup (objSpread base ext) k = recLookup base k := by
  intro ext
  induction ext with
  | nil => intro base k _; rfl
  | cons q rest ih =>
    intro base k h
    have hq : q.1 ≠ k := h q (List.mem_cons_self q rest)
    have hrest : ∀ p ∈ rest, p.1 ≠ k := fun p hp => h p (List.mem_cons_of_mem q hp)
    show recLookup (objSpread (objInsert base q.1 q.2) rest) k = recLookup base k
    rw [ih (objInsert base q.1 q.2) k hrest]
    exact recLookup_objInsert_ne base q.1 q.2 k (fun hk => hq hk.symm)

/-- Spreading a record with pairwise-distinct keys preserves every
key-value binding it defines. -/
lemma recLookup_objSpread_preserves : ∀ (ext base : JRecord),
    (ext.map Prod.fst).Nodup → ∀ (k : String) (v : Json),
    recLookup ext k = some v →
    recLookup (objSpread base ext) k = some v := by
  intro ext
  induction ext with
  | nil =>
    intro base _ k v h
    simp [recLookup] at h
  | cons q rest ih =>
    intro base hnd k v h
    rw [List.map_cons, List.nodup_cons] at hnd
    obtain ⟨hnd1, hnd2⟩ := hnd
    by_cases hq : (q.1 == k) = true
    · have hqk : q.1 = k := eq_of_beq hq
      have hv : recLookup (q :: rest) k = some q.2 := by
        unfold recLookup
        rw [List.find?_cons_of_pos _ (by exact hq)]
        rfl
      have hv2 : v = q.2 := by
        rw [h] at hv
        exact Option.some.inj hv
      have hrest : ∀ p ∈ rest, p.1 ≠ k := by
        intro p hp hpk
        apply hnd1
        rw [hqk, ← hpk]
        exact List.mem_map_of_mem Prod.fst hp
      show recLookup (objSpread (objInsert base q.1 q.2) rest) k = some v
      rw [recLookup_objSpread_not_mem rest (objInsert base q.1 q.2) k hrest, hqk,
        recLookup_objInsert_self, hv2]
    · have h2 : recLookup rest k = some v := by
        unfold recLookup at h ⊢
        rw [List.find?_cons_of_neg _ (by exact hq)] at h
        exact h
      exact ih (objInsert base q.1 q.2) hnd2 k v h2

/-- A tool whose input schema is the empty object. -/
def schemalessTool : Tool :=
  { name := "t"
    description := "d"
    inputSchema := []
    execute := fun _ => Except.ok "" }

/-- Counterexample to C8: the translation does not leave every input
schema unchanged — a schema without a `type` key gains the field
`type: "object"`, so the advertised schema differs from the tool's. -/
theorem toAnthropicTools_not_always_unchanged :
    toAnthropicTools [schemalessTool]
      = [{ name := "t", description := "d", input_schema := [("type", Json.str "object")] }]
    ∧ schemalessTool.inputSchema = []
    ∧ ([("type", Json.str "object")] : JRecord) ≠ schemalessTool.inputSchema := by
  refine ⟨rfl, rfl, by simp [schemalessTool]⟩

/-- C8 amended: the advertised tool list keeps the length and order of
the input list with names and descriptions unchanged, and for a tool
whose schema has pairwise-distinct keys, every binding of the schema is
preserved in the advertised `input_schema`; the only change is that a
`type: "object"` field is added when the schema defines no `type`
key. -/
theorem toAnthropicTools_lossless_up_to_type_default (tools : List Tool) (t : Tool)
    (hnd : (t.inputSchema.map Prod.fst).Nodup) :
    (toAnthropicTools tools).map AnthropicTool.name = tools.map Tool.name
    ∧ (toAnthropicTools tools).map AnthropicTool.description = tools.map Tool.description
    ∧ (toAnthropicTools tools).length = tools.length
    ∧ (∀ k v, recLookup t.inputSchema k = some v →
        recLookup (toAnthropicTool t).input_schema k = some v)
    ∧ (recLookup t.inputSchema "type" = none →
        recLookup (toAnthropicTool t).input_schema "type" = some (Json.str "object")) := by
  refine ⟨by simp [toAnthropicTools, toAnthropicTool], by simp [toAnthropicTools, toAnthropicTool],
    by simp [toAnthropicTools], fun k v h => ?_, fun h => ?_⟩
  · exact recLookup_objSpread_preserves t.inputSchema _ hnd k v h
  · have hf : t.inputSchema.find? (fun q => q.1 == "type") = none := by
      unfold recLookup at h
      cases hf2 : t.inputSchema.find? (fun q => q.1 == "type") with
      | none => rfl
      | some q => rw [hf2] at h; simp at h
    have hmem : ∀ p ∈ t.inputSchema, p.1 ≠ "type" := by
      intro p hp hpk
      apply List.find?_eq_none.mp hf p hp
      simp [hpk]
    show recLookup (objSpread [("type", Json.str "object")] t.inputSchema) "type"
      = some (Json.str "object")
    rw [recLookup_objSpread_not_mem t.inputSchema _ "type" hmem]
    rfl

/-- A tool whose schema carries both a type and a properties field. -/
def sampleTool : Tool :=
  { name := "sample"
    description := "sample tool"
    inputSchema := [("type", Json.str "object"), ("properties", Json.obj [])]
    execute := fun _ => Except.ok "ok" }

/-- Witness for C8 amended, at a concrete tool list and schema. -/
theorem toAnthropicTools_lossless_up_to_type_default_witness :
    (toAnthropicTools [sampleTool]).map AnthropicTool.name = ["sample"]
    ∧ recLookup (toAnthropicTool sampleTool).input_schema "properties"
      = some (Json.obj []) := by
  have h := toAnthropicTools_lossless_up_to_type_default [sampleTool] sampleTool
    (by simp [sampleTool])
  exact ⟨by simpa [sampleTool] using h.1, h.2.2.2.1 "properties" (Json.obj []) rfl⟩

/-- The error object execFile passes to its callback on failure:
`error.code` is the exit code when present (absent e.g. on a timeout
kill). -/
structure ExecError where
  code : Option Int

/-- What the operating system reports for one execFile invocation:
an optional error plus the captured stdout and stderr. -/
structure BashOutcome where
  error : Option ExecError
  stdout : String
  stderr : String

/-- src/tools/bash.ts, the execFile callback body: on error resolve with
stdout, stderr, a newline and an exit-code marker (code defaulting to 1
when absent); on success resolve with the trailing-whitespace-trimmed
concatenation. -/
def bashCallback (error : Option ExecError) (stdout stderr : String) : String :=
  match error with
  | some e =>
      stdout ++ stderr ++ "\n[exit code " ++ toString (e.code.getD 1) ++ "]"
  | none => (stdout ++ stderr).trimRight

/-- The unchecked `input.command as string` cast: reads the key as a
string, other shapes being outside the modelled behaviour. -/
def asString : Option Json → String
  | some (Json.str s) => s
  | _ => ""

/-- src/tools/bash.ts, bashTool, parameterised by an oracle `os` giving
the execFile outcome for each command.  The promise only ever resolves
(the executor wraps the callback in `resolve` and never rejects), so
`execute` is always `Except.ok`. -/
def bashTool (os : String → BashOutcome) : Tool :=
  { name := "bash"
    description := "Execute a bash command and return its output (stdout + stderr)."
    inputSchema :=
      [("type", Json.str "object"),
       ("properties", Json.obj
         [("command", Json.obj
           [("type", Json.str "string"),
            ("description", Json.str "The bash command to execute")])]),
       ("required", Json.arr [Json.str "command"])]
    execute := fun input =>
      let r := os (asString (recLookup input "command"))
      Except.ok (bashCallback r.error r.stdout r.stderr) }

/-- C9: for every command input, bashTool.execute resolves and never
rejects — its result is always `Except.ok`, so no bash invocation can
raise into the orchestration loop; on failure the resolved text is
stdout and stderr followed by a newline and the bracketed exit code
(defaulting to 1 when the error carries none), and on success it is the
trailing-whitespace-trimmed concatenation of stdout and stderr. -/
theorem bash_tool_never_rejects (os : String → BashOutcome) (input : JRecord) :
    (∃ s, (bashTool os).execute input = Except.ok s)
    ∧ (∀ stdout stderr : String, ∀ code : Int,
        bashCallback (some { code := some code }) stdout stderr
          = stdout ++ stderr ++ "\n[exit code " ++ toString code ++ "]")
    ∧ (∀ stdout stderr : String,
        bashCallback (some { code := none }) stdout stderr
          = stdout ++ stderr ++ "\n[exit code 1]")
    ∧ (∀ stdout stderr : String,
        bashCallback none stdout stderr = (stdout ++ stderr).trimRight) := by
  refine ⟨⟨_, rfl⟩, fun o e c => rfl, fun o e => ?_, fun o e => rfl⟩
  show o ++ e ++ "\n[exit code " ++ toString ((none : Option Int).getD 1) ++ "]"
    = o ++ e ++ "\n[exit code 1]"
  have h1 : toString ((none : Option Int).getD 1) = "1" := by decide
  have h2 : ("\n[exit code " ++ ("1" ++ "]") : String) = "\n[exit code 1]" := by decide
  rw [h1]
  simp only [String.append_assoc]
  rw [h2]


/-- A Gmail message-part body: `body?: { data?: string }`. -/
structure MsgBody where
  data : Option String

mutual

/-- A Gmail message part (gmail_v1.Schema.MessagePart restricted to the
fields the parser reads): an optional MIME type, an optional body and
an optional array of sub-parts.  The optional array is represented by
the mutually defined `OptMessageParts`/`MessageParts` (isomorphic to
`Option (List MessagePart)`) so that the parser's recursion over the
finite part tree stays structural. -/
inductive MessagePart where
  | mk (mimeType : Option String) (body : Option MsgBody) (parts : OptMessageParts)

/-- The optional sub-part array: absent, or a part list. -/
inductive OptMessageParts where
  | none
  | some (parts : MessageParts)

/-- A list of message parts. -/
inductive MessageParts where
  | nil
  | cons (head : MessagePart) (tail : MessageParts)

end

/-- The mimeType field. -/
def MessagePart.mimeType : MessagePart → Option String
  | MessagePart.mk m _ _ => m

/-- The body field. -/
def MessagePart.body : MessagePart → Option MsgBody
  | MessagePart.mk _ b _ => b

/-- The parts field. -/
def MessagePart.parts : MessagePart → OptMessageParts
  | MessagePart.mk _ _ p => p

/-- `parts.length` of a part array. -/
def MessageParts.length : MessageParts → Nat
  | MessageParts.nil => 0
  | MessageParts.cons _ t => t.length + 1

/-- The JavaScript truthiness test `payload.body?.data`: the data
string, provided the body exists, carries data, and that data is not
the empty string (the empty string is falsy). -/
def truthyData (p : MessagePart) : Option String :=
  match p.body with
  | Option.some b =>
      match b.data with
      | Option.some d => if d = "" then Option.none else Option.some d
      | Option.none => Option.none
  | Option.none => Option.none

/-- The test `part.mimeType?.startsWith("multipart/")`. -/
def isMultipartMime (p : MessagePart) : Bool :=
  match p.mimeType with
  | Option.some m => m.startsWith "multipart/"
  | Option.none => false

/-- The two platform text functions the parser calls: base64url body
decoding (Node Buffer) and HTML-to-text rendering (cheerio), opaque to
the parser's own control flow. -/
structure TextCodecs where
  decodeBody : String → String
  htmlToText : String → String

/-- parser.ts extractText, the leading leaf-node returns: a truthy data
string yields the decoded text for text/plain, the rendered HTML for
text/html, and nothing for any other MIME type. -/
def leafText (c : TextCodecs) (mimeType : Option String) (d : String) : Option String :=
  if mimeType = Option.some "text/plain" then Option.some (c.decodeBody d)
  else if mimeType = Option.some "text/html" then
    Option.some (c.htmlToText (c.decodeBody d))
  else Option.none

/-- The leaf-node block of extractText: the leaf result when the body
data is truthy, nothing otherwise. -/
def leafOf (c : TextCodecs) (p : MessagePart) : Option String :=
  match truthyData p with
  | Option.some d => leafText c p.mimeType d
  | Option.none => Option.none

/-- The leaf-node block of `hasTextLeaf`: the body data is truthy and
the MIME type is one of the two text types. -/
def leafIsText (p : MessagePart) : Bool :=
  match truthyData p with
  | Option.some _ =>
      (p.mimeType == Option.some "text/plain")
        || (p.mimeType == Option.some "text/html")
  | Option.none => false

/-- parser.ts extractText, first loop of the multipart/alternative
branch: scan the parts in reverse for a text/html part with truthy
data and return its rendered text. -/
def altHtmlRev (c : TextCodecs) : MessageParts → Option String
  | MessageParts.nil => Option.none
  | MessageParts.cons p rest =>
      (altHtmlRev c rest).orElse (fun _ =>
        if p.mimeType = Option.some "text/html" then
          (truthyData p).map (fun d => c.htmlToText (c.decodeBody d))
        else Option.none)

/-- parser.ts extractText, third loop of the multipart/alternative
branch: scan the parts forward for a text/plain part with truthy data
and return its decoded text. -/
def altPlainFwd (c : TextCodecs) : MessageParts → Option String
  | MessageParts.nil => Option.none
  | MessageParts.cons p rest =>
      if p.mimeType = Option.some "text/plain" then
        ((truthyData p).map (fun d => c.decodeBody d)).orElse (fun _ =>
          altPlainFwd c rest)
      else altPlainFwd c rest

mutual

/-- parser.ts extractText: the leaf returns first; then the
absent-or-empty-parts return; then, for multipart/alternative, the
reversed HTML scan, the reversed nested-multipart scan and the forward
text/plain scan, falling through to the final concatenation when all
three find nothing; the concatenation joins the non-empty recursive
extractions of all sub-parts with blank lines. -/
def extractText (c : TextCodecs) : MessagePart → String
  | MessagePart.mk mimeType body partsOpt =>
      (leafOf c (MessagePart.mk mimeType body partsOpt)).getD
        (match partsOpt with
         | OptMessageParts.none => ""
         | OptMessageParts.some parts =>
             if parts.length = 0 then ""
             else if mimeType = Option.some "multipart/alternative" then
               ((altHtmlRev c parts).orElse (fun _ =>
                 (altMultipartRev c parts).orElse (fun _ =>
                   altPlainFwd c parts))).getD
                 (String.intercalate "\n\n" (collectSections c parts))
             else String.intercalate "\n\n" (collectSections c parts))

/-- parser.ts extractText, second loop of the multipart/alternative
branch: scan the parts in reverse for a nested multipart child whose
recursive extraction is non-empty. -/
def altMultipartRev (c : TextCodecs) : MessageParts → Option String
  | MessageParts.nil => Option.none
  | MessageParts.cons p rest =>
      (altMultipartRev c rest).orElse (fun _ =>
        if isMultipartMime p then
          if extractText c p = "" then Option.none
          else Option.some (extractText c p)
        else Option.none)

/-- parser.ts extractText, the closing loop: collect the non-empty
recursive extractions of all sub-parts, in order. -/
def collectSections (c : TextCodecs) : MessageParts → List String
  | MessageParts.nil => []
  | MessageParts.cons p rest =>
      if extractText c p = "" then collectSections c rest
      else extractText c p :: collectSections c rest

end

mutual

/-- The claim-side predicate: the payload has a decodable text/plain or
text/html leaf (truthy body data of one of the two text MIME types), or
some sub-part subtree containing one. -/
def hasTextLeaf : MessagePart → Bool
  | MessagePart.mk mimeType body partsOpt =>
      leafIsText (MessagePart.mk mimeType body partsOpt)
      || (match partsOpt with
          | OptMessageParts.none => false
          | OptMessageParts.some parts => hasAnyTextLeaf parts)

/-- Some part of the array satisfies `hasTextLeaf`. -/
def hasAnyTextLeaf : MessageParts → Bool
  | MessageParts.nil => false
  | MessageParts.cons p rest => hasTextLeaf p || hasAnyTextLeaf rest

end


/-- Joining no sections gives the empty string. -/
lemma intercalate_nil (s : String) : String.intercalate s [] = "" := rfl

/-- An array with no text leaf is a head with none and a tail with
none. -/
lemma hasAnyTextLeaf_cons_false {p : MessagePart} {rest : MessageParts}
    (h : hasAnyTextLeaf (MessageParts.cons p rest) = false) :
    hasTextLeaf p = false ∧ hasAnyTextLeaf rest = false := by
  unfold hasAnyTextLeaf at h
  rwa [Bool.or_eq_false_iff] at h

/-- A part with no text leaf has no text leaf among its sub-parts. -/
lemma hasTextLeaf_false_parts (m : Option String) (b : Option MsgBody)
    (parts : MessageParts)
    (h : hasTextLeaf (MessagePart.mk m b (OptMessageParts.some parts)) = false) :
    hasAnyTextLeaf parts = false := by
  unfold hasTextLeaf at h
  rw [Bool.or_eq_false_iff] at h
  exact h.2

/-- A part with no text leaf but truthy body data has neither of the
two text MIME types. -/
lemma hasTextLeaf_false_leaf (m : Option String) (b : Option MsgBody)
    (po : OptMessageParts) (d : String)
    (h : hasTextLeaf (MessagePart.mk m b po) = false)
    (ht : truthyData (MessagePart.mk m b po) = Option.some d) :
    ¬ m = Option.some "text/plain" ∧ ¬ m = Option.some "text/html" := by
  unfold hasTextLeaf at h
  rw [Bool.or_eq_false_iff] at h
  have h1 := h.1
  unfold leafIsText at h1
  rw [ht] at h1
  rw [Bool.or_eq_false_iff] at h1
  simp [MessagePart.mimeType] at h1
  exact h1

/-- A part with no text leaf produces nothing in the leaf block. -/
lemma leafOf_none_of_no_leaf (c : TextCodecs) (m : Option String)
    (b : Option MsgBody) (po : OptMessageParts)
    (h : hasTextLeaf (MessagePart.mk m b po) = false) :
    leafOf c (MessagePart.mk m b po) = Option.none := by
  unfold leafOf
  cases ht : truthyData (MessagePart.mk m b po) with
  | none => rfl
  | some d =>
      have hne := hasTextLeaf_false_leaf m b po d h ht
      simp [leafText, MessagePart.mimeType, hne.1, hne.2]

/-- The reversed HTML scan finds nothing in an array with no text
leaf. -/
lemma altHtmlRev_none_of_no_leaf (c : TextCodecs) : ∀ (n : Nat) (ps : MessageParts),
    sizeOf ps ≤ n → hasAnyTextLeaf ps = false → altHtmlRev c ps = Option.none := by
  intro n
  induction n using Nat.strong_induction_on with
  | _ n ih =>
    intro ps hsz h
    cases ps with
    | nil => rfl
    | cons p rest =>
        obtain ⟨h1, h2⟩ := hasAnyTextLeaf_cons_false h
        have hszr : sizeOf rest < n := by
          have hlt : sizeOf rest < sizeOf (MessageParts.cons p rest) := by
            simp
          omega
        have hrest := ih (sizeOf rest) hszr rest le_rfl h2
        unfold altHtmlRev
        rw [hrest]
        obtain ⟨m, b, po⟩ := p
        by_cases hm : MessagePart.mimeType (MessagePart.mk m b po)
            = Option.some "text/html"
        · cases ht : truthyData (MessagePart.mk m b po) with
          | none => simp [hm, ht]
          | some d =>
              exfalso
              have hne := hasTextLeaf_false_leaf m b po d h1 ht
              simp [MessagePart.mimeType] at hm
              exact hne.2 hm
        · simp [hm]

/-- The forward text/plain scan finds nothing in an array with no text
leaf. -/
lemma altPlainFwd_none_of_no_leaf (c : TextCodecs) : ∀ (n : Nat) (ps : MessageParts),
    sizeOf ps ≤ n → hasAnyTextLeaf ps = false → altPlainFwd c ps = Option.none := by
  intro n
  induction n using Nat.strong_induction_on with
  | _ n ih =>
    intro ps hsz h
    cases ps with
    | nil => rfl
    | cons p rest =>
        obtain ⟨h1, h2⟩ := hasAnyTextLeaf_cons_false h
        have hszr : sizeOf rest < n := by
          have hlt : sizeOf rest < sizeOf (MessageParts.cons p rest) := by
            simp
          omega
        have hrest := ih (sizeOf rest) hszr rest le_rfl h2
        unfold altPlainFwd
        obtain ⟨m, b, po⟩ := p
        by_cases hm : MessagePart.mimeType (MessagePart.mk m b po)
            = Option.some "text/plain"
        · cases ht : truthyData (MessagePart.mk m b po) with
          | none => simp [hm, ht, hrest]
          | some d =>
              exfalso
              have hne := hasTextLeaf_false_leaf m b po d h1 ht
              simp [MessagePart.mimeType] at hm
              exact hne.1 hm
        · simp [hm, hrest]

/-- Simultaneous strong induction for the tree and the array: without a
text leaf, extraction is empty, the nested-multipart scan finds nothing
and the section collection is empty. -/
lemma extract_empty_aux (c : TextCodecs) : ∀ n : Nat,
    (∀ p : MessagePart, sizeOf p ≤ n → hasTextLeaf p = false → extractText c p = "")
    ∧ (∀ ps : MessageParts, sizeOf ps ≤ n → hasAnyTextLeaf ps = false →
        altMultipartRev c ps = Option.none ∧ collectSections c ps = []) := by
  intro n
  induction n using Nat.strong_induction_on with
  | _ n ih =>
    constructor
    · intro p hsz hleaf
      obtain ⟨m, b, po⟩ := p
      have hleafOf := leafOf_none_of_no_leaf c m b po hleaf
      unfold extractText
      rw [hleafOf]
      cases po with
      | none => rfl
      | some parts =>
          have hany : hasAnyTextLeaf parts = false :=
            hasTextLeaf_false_parts m b parts hleaf
          by_cases hlen : parts.length = 0
          · simp [hlen]
          · have hszp : sizeOf parts < n := by
              have hlt : sizeOf parts
                  < sizeOf (MessagePart.mk m b (OptMessageParts.some parts)) := by
                simp
                omega
              omega
            have hml := (ih (sizeOf parts) hszp).2 parts le_rfl hany
            have hhtml := altHtmlRev_none_of_no_leaf c (sizeOf parts) parts le_rfl hany
            have hplain := altPlainFwd_none_of_no_leaf c (sizeOf parts) parts le_rfl hany
            simp [hlen, hhtml, hml.1, hml.2, hplain, intercalate_nil]
    · intro ps hsz hany
      cases ps with
      | nil => exact ⟨rfl, rfl⟩
      | cons p rest =>
          obtain ⟨h1, h2⟩ := hasAnyTextLeaf_cons_false hany
          have hszp : sizeOf p < n := by
            have hlt : sizeOf p < sizeOf (MessageParts.cons p rest) := by
              simp
              omega
            omega
          have hszr : sizeOf rest < n := by
            have hlt : sizeOf rest < sizeOf (MessageParts.cons p rest) := by
              simp
            omega
          have hp := (ih (sizeOf p) hszp).1 p le_rfl h1
          have hr := (ih (sizeOf rest) hszr).2 rest le_rfl h2
          constructor
          · unfold altMultipartRev
            rw [hr.1]
            by_cases hmm2 : isMultipartMime p = true
            · simp [hmm2, hp]
            · simp [hmm2]
          · unfold collectSections
            simp [hp, hr.2]

/-- C10: extractText is total on every finite message-part tree (the
recursion of the definition itself witnesses termination, each call
recursing only into strict sub-parts), and it returns the empty string
whenever the payload has no decodable text/plain or text/html leaf and
no parts containing one. -/
theorem extractText_total_and_empty_without_text_leaf (c : TextCodecs)
    (p : MessagePart) :
    (∃ s : String, extractText c p = s)
    ∧ (hasTextLeaf p = false → extractText c p = "") :=
  ⟨⟨extractText c p, rfl⟩,
   fun h => (extract_empty_aux c (sizeOf p)).1 p le_rfl h⟩

/-- Identity codecs for concrete evaluation. -/
def sampleCodecs : TextCodecs :=
  { decodeBody := fun s => s, htmlToText := fun s => s }

/-- A non-text attachment leaf. -/
def attachmentPart : MessagePart :=
  MessagePart.mk (Option.some "application/pdf")
    (Option.some { data := Option.some "QUJD" }) OptMessageParts.none

/-- A multipart/mixed payload whose only part is the attachment. -/
def mixedPart : MessagePart :=
  MessagePart.mk (Option.some "multipart/mixed") Option.none
    (OptMessageParts.some (MessageParts.cons attachmentPart MessageParts.nil))

/-- Witness for C10: the attachment-only payload has no text leaf and
extracts to the empty string. -/
theorem extractText_total_and_empty_without_text_leaf_witness :
    hasTextLeaf mixedPart = false ∧ extractText sampleCodecs mixedPart = "" :=
  ⟨by decide,
   (extractText_total_and_empty_without_text_leaf sampleCodecs mixedPart).2 (by decide)⟩

end MicroXAgentLoop
